import Mathlib

/-!
Verification of the face-identity pipeline of the photo server.

The development shallowly embeds the Python sources:

* `embedding_to_bytes` / `bytes_to_embedding` (src/server/ai/face_embedder.py):
  float32 values are modelled by their 32-bit patterns (`Nat < 2^32`), the
  serialized form by little-endian byte lists (`Nat < 256`).
* `find_nearest_face` and the singleton branch of `compute_centroid`
  (src/server/ai/face_cluster.py): embeddings as exact rational vectors
  (`List ℚ`); the floating-point mean-and-normalize branch of
  `compute_centroid` is kept as an explicit function parameter `mix`
  (its arithmetic is verified separately in the real-valued model
  `compute_centroidR` / `normalizeIfPos`), and the store-level theorems
  hold for every instantiation of that parameter.
* `merge_faces` / `recluster_faces` (src/server/services/face_service.py)
  and the per-face loop of `AIWorker._process_photo`
  (src/server/ai/worker.py): an explicit database state (`DB`) of identity
  rows (`FaceRec`) and occurrence links (`PhotoFaceRec`), with the session
  operations made explicit list manipulations.  `session.get` on a primary
  key is `List.find?` on the id; `session.delete` is `List.eraseP`.
  The unreachable fault paths of the source (a matched id that is absent
  from the store would leave the Python local `face_id` stale) are modelled
  by `Option`: `none` marks the fault, and the theorems show it does not
  occur from well-formed states.
-/

namespace FacePipeline

/-! ### Serialization (src/server/ai/face_embedder.py, lines 91-98)

`embedding.astype(np.float32).tobytes()` lays out each 32-bit float in
little-endian byte order; `np.frombuffer(data, dtype=np.float32)` reads the
bytes back four at a time.  A float32 value is represented here by its bit
pattern, a natural number below `2^32`; a byte is a natural number below
`256`. -/

/-- Little-endian byte decomposition of one 32-bit word, as produced for each
float32 element by `ndarray.tobytes`. -/
def wordToBytes (w : Nat) : List Nat :=
  [w % 256, w / 256 % 256, w / 256 ^ 2 % 256, w / 256 ^ 3 % 256]

/-- Model of `embedding_to_bytes`: serialize a vector of float32 bit patterns
to its little-endian byte string. -/
def embedding_to_bytes (v : List Nat) : List Nat :=
  v.flatMap wordToBytes

/-- Model of `bytes_to_embedding`: read the byte string back four bytes at a
time (`np.frombuffer(data, dtype=np.float32)`).  `np.frombuffer` raises when
the length is not a multiple of 4; the theorems below only evaluate this
function on byte strings of valid length, where the equation recursion below
agrees with the source. -/
def bytes_to_embedding : List Nat → List Nat
  | b0 :: b1 :: b2 :: b3 :: rest =>
      (b0 + 256 * b1 + 256 ^ 2 * b2 + 256 ^ 3 * b3) :: bytes_to_embedding rest
  | _ => []

/-! ### Online matcher (src/server/ai/face_cluster.py, lines 62-92)

Embeddings are exact rational vectors.  `known_matrix @ embedding` computes
the dot product of each known embedding with the query; `np.argmax` returns
the first index attaining the maximum. -/

/-- Embeddings as exact rational vectors (ideal-arithmetic model of the
float32 vectors used by the source). -/
abbrev Emb := List ℚ

/-- Dot product of two embedding vectors (`known_matrix @ embedding` row). -/
def dotQ (a b : Emb) : ℚ :=
  (List.zipWith (fun x y => x * y) a b).sum

/-- First index of the maximum element, as computed by `np.argmax`. -/
def argmaxIdx : List ℚ → Nat
  | [] => 0
  | x :: xs => if xs.all (fun y => y ≤ x) then 0 else argmaxIdx xs + 1

/-- Match threshold used by the worker (`MATCH_THRESHOLD = 0.4` in
src/server/ai/worker.py, also the default of `find_nearest_face`). -/
def MATCH_THRESHOLD : ℚ := 2 / 5

/-- Model of `find_nearest_face`: similarity of the query with every known
embedding, `np.argmax` over the similarities, distance `1 - best_sim`,
inclusive threshold test. -/
def find_nearest_face (embedding : Emb) (known_embeddings : List Emb)
    (known_face_ids : List Nat) (threshold : ℚ) : Option Nat × ℚ :=
  if known_embeddings.isEmpty then (none, 1)
  else
    let similarities := known_embeddings.map (fun k => dotQ k embedding)
    let best_idx := argmaxIdx similarities
    let best_sim := similarities.getD best_idx 0
    let best_dist := 1 - best_sim
    if best_dist ≤ threshold then (some (known_face_ids.getD best_idx 0), best_dist)
    else (none, best_dist)

/-- Model of `compute_centroid` at the store level.  The `len(embeddings) == 1`
branch returns the single element unchanged, exactly as the source does with
no arithmetic.  The other branch (`np.mean` followed by conditional L2
normalization in float32) is kept as the parameter `mix`; every store-level
theorem below holds for every instantiation of `mix`, and the arithmetic
content of that branch is verified in the real-valued model
`compute_centroidR`. -/
def compute_centroid (mix : List Emb → Emb) : List Emb → Emb
  | [e] => e
  | es => mix es

/-! ### Identity store state (src/server/models/photo.py)

`Face` rows carry an optional name, an optional stored embedding and a
`photo_count`; `PhotoFace` rows link a photo to a face with a bounding box and
a confidence.  Ids are modelled as naturals; `nextId` models the allocator of
fresh primary keys. -/

/-- One identity row (`Face` in src/server/models/photo.py). -/
structure FaceRec where
  id : Nat
  name : Option String
  embedding : Option Emb
  photo_count : Nat
deriving DecidableEq

/-- One occurrence link (`PhotoFace` in src/server/models/photo.py). -/
structure PhotoFaceRec where
  photo_id : Nat
  face_id : Nat
  bbox_x : ℚ
  bbox_y : ℚ
  bbox_w : ℚ
  bbox_h : ℚ
  confidence : ℚ
deriving DecidableEq

/-- The identity store: identity rows, occurrence links, and the next fresh
primary key. -/
structure DB where
  faces : List FaceRec
  links : List PhotoFaceRec
  nextId : Nat
deriving DecidableEq

/-- Primary-key lookup (`session.get(Face, fid)`). -/
def sessionGetFace (db : DB) (fid : Nat) : Option FaceRec :=
  db.faces.find? (fun f => f.id == fid)

/-- Number of occurrence links referencing a given identity
(`select(func.count()).select_from(PhotoFace).where(PhotoFace.face_id == fid)`). -/
def linkCount (links : List PhotoFaceRec) (fid : Nat) : Nat :=
  links.countP (fun pf => pf.face_id == fid)

/-- The `photo_count` stored on the identity `fid`, or 0 when the identity
does not exist. -/
def photoCountOf (db : DB) (fid : Nat) : Nat :=
  ((sessionGetFace db fid).map (fun f => f.photo_count)).getD 0

/-! ### Merge engine (src/server/services/face_service.py, lines 94-158) -/

/-- Loop state of the `for src_id in source_face_ids` loop of `merge_faces`. -/
structure MergeAcc where
  faces : List FaceRec
  links : List PhotoFaceRec
  merged : Nat
  embs : List Emb
deriving DecidableEq

/-- Reassign every occurrence link of `src` to `tgt` (`pf.face_id = target_face_id`
over the selected rows). -/
def reassignLinks (src tgt : Nat) (links : List PhotoFaceRec) : List PhotoFaceRec :=
  links.map (fun pf =>
    if pf.face_id == src then { pf with face_id := tgt } else pf)

/-- Delete the source row (`session.delete(source)`, a primary-key delete). -/
def eraseFace (src : Nat) (faces : List FaceRec) : List FaceRec :=
  faces.eraseP (fun f => f.id == src)

/-- One iteration of the source loop of `merge_faces`: skip the target itself,
skip a missing source, otherwise reassign the source's links to the target
(counting each moved link in `merged_count`), collect the source's embedding,
and delete the source row. -/
def mergeStep (target_id : Nat) (acc : MergeAcc) (src_id : Nat) : MergeAcc :=
  if src_id == target_id then acc
  else
    match acc.faces.find? (fun f => f.id == src_id) with
    | none => acc
    | some source =>
        { faces := eraseFace src_id acc.faces
          links := reassignLinks src_id target_id acc.links
          merged := acc.merged + linkCount acc.links src_id
          embs := acc.embs ++ (match source.embedding with
            | some e => [e]
            | none => []) }

/-- Result dictionary returned by `merge_faces`. -/
structure MergeResult where
  id : Nat
  name : Option String
  photo_count : Nat
  merged : Nat
deriving DecidableEq

/-- Model of `merge_faces`: `None` (and no state change) when the target does
not exist; otherwise fold the source loop, recompute the centroid from the
collected embeddings when any were collected, recount the target's links
authoritatively, and store the updated target. -/
def merge_faces (mix : List Emb → Emb) (target_face_id : Nat)
    (source_face_ids : List Nat) (db : DB) : Option MergeResult × DB :=
  match sessionGetFace db target_face_id with
  | none => (none, db)
  | some target =>
      let acc0 : MergeAcc :=
        { faces := db.faces, links := db.links, merged := 0
          embs := match target.embedding with
            | some e => [e]
            | none => [] }
      let acc := source_face_ids.foldl (mergeStep target_face_id) acc0
      let newEmb : Option Emb :=
        match acc.embs with
        | [] => target.embedding
        | es => some (compute_centroid mix es)
      let cnt := linkCount acc.links target_face_id
      let faces2 := acc.faces.map (fun f =>
        if f.id == target_face_id then
          { f with embedding := newEmb, photo_count := cnt }
        else f)
      (some { id := target_face_id, name := target.name, photo_count := cnt,
              merged := acc.merged },
       { faces := faces2, links := acc.links, nextId := db.nextId })

/-! ### Ingestion worker (src/server/ai/worker.py, lines 104-214)

Only the identity-store part of `_process_photo` is modelled: the photo-table
guards, image loading and scene classification touch external collaborators
and do not affect faces or links. A detected face is its optional embedding
(`FaceEmbedder.embed` returns `None` on failure, and the loop `continue`s)
plus the detection payload copied into the link. -/

/-- One detection handed to the per-face loop: the embedder's result and the
bounding-box payload. -/
structure Detection where
  emb : Option Emb
  bbox_x : ℚ
  bbox_y : ℚ
  bbox_w : ℚ
  bbox_h : ℚ
  confidence : ℚ
deriving DecidableEq

/-- The `PhotoFace` row created for one detection. -/
def mkLink (photo_id face_id : Nat) (det : Detection) : PhotoFaceRec :=
  { photo_id := photo_id, face_id := face_id, bbox_x := det.bbox_x,
    bbox_y := det.bbox_y, bbox_w := det.bbox_w, bbox_h := det.bbox_h,
    confidence := det.confidence }

/-- Worker loop state: the store plus the matcher snapshot
(`known_embeddings`/`known_ids`), which is extended with faces newly created
earlier in the same photo. -/
structure MatchState where
  db : DB
  known_embeddings : List Emb
  known_ids : List Nat
deriving DecidableEq

/-- One iteration of the per-face loop of `_process_photo`.  `none` models the
fault the source would hit if a matched id were absent from the store (the
Python local `face_id` would be stale or unbound); the theorems show this
cannot happen from a well-formed state. -/
def processFace (mix : List Emb → Emb) (photo_id : Nat) (st : MatchState)
    (det : Detection) : Option MatchState :=
  match det.emb with
  | none => some st
  | some embedding =>
      match (find_nearest_face embedding st.known_embeddings st.known_ids
          MATCH_THRESHOLD).1 with
      | some matched_id =>
          match sessionGetFace st.db matched_id with
          | none => none
          | some face =>
              let face2 : FaceRec :=
                { face with
                  photo_count := face.photo_count + 1
                  embedding := match face.embedding with
                    | some old => some (compute_centroid mix [old, embedding])
                    | none => face.embedding }
              some { st with db :=
                { st.db with
                  faces := st.db.faces.map (fun f =>
                    if f.id == matched_id then face2 else f)
                  links := st.db.links ++ [mkLink photo_id matched_id det] } }
      | none =>
          let fid := st.db.nextId
          let newFace : FaceRec :=
            { id := fid, name := none, embedding := some embedding,
              photo_count := 1 }
          some
            { db :=
                { faces := st.db.faces ++ [newFace]
                  links := st.db.links ++ [mkLink photo_id fid det]
                  nextId := fid + 1 }
              known_embeddings := st.known_embeddings ++ [embedding]
              known_ids := st.known_ids ++ [fid] }

/-- The per-face loop (`for det in detected`). -/
def processFaces (mix : List Emb → Emb) (photo_id : Nat) :
    List Detection → MatchState → Option MatchState
  | [], st => some st
  | d :: ds, st =>
      match processFace mix photo_id st d with
      | none => none
      | some st2 => processFaces mix photo_id ds st2

/-- Model of the identity-store part of `_process_photo`: skip an
already-processed photo (idempotency guard), skip a photo with no detections,
otherwise snapshot the known faces (rows with an embedding) and run the
per-face loop. -/
def process_photo (mix : List Emb → Emb) (photo_id : Nat)
    (detected : List Detection) (db : DB) : Option DB :=
  if db.links.any (fun pf => pf.photo_id == photo_id) then some db
  else if detected.isEmpty then some db
  else
    let knownFaces := db.faces.filter (fun f => f.embedding.isSome)
    let st0 : MatchState :=
      { db := db
        known_embeddings := knownFaces.filterMap (fun f => f.embedding)
        known_ids := knownFaces.map (fun f => f.id) }
    (processFaces mix photo_id detected st0).map (fun st => st.db)

/-! ### Batch reclusterer (src/server/services/face_service.py, lines 161-198)

`cluster_faces` runs sklearn's DBSCAN (or degrades); its output dictionary
`label -> face_ids` is kept as the explicit parameter `clusterFn`, since the
library call is external.  The `< 2` guard and the per-cluster merge loop are
taken from the source. -/

/-- Stable insertion of a face into a list sorted by `photo_count`
descending. -/
def insertByCountDesc (f : FaceRec) : List FaceRec → List FaceRec
  | [] => [f]
  | g :: gs =>
      if g.photo_count < f.photo_count then f :: g :: gs
      else g :: insertByCountDesc f gs

/-- Stable sort by `photo_count` descending
(`cluster_faces_db.sort(key=..., reverse=True)`). -/
def sortByCountDesc (l : List FaceRec) : List FaceRec :=
  l.foldr insertByCountDesc []

/-- Result dictionary returned by `recluster_faces`. -/
structure ReclusterResult where
  clusters : Nat
  merged : Nat
deriving DecidableEq

/-- Model of `recluster_faces`: collect the rows with an embedding; when fewer
than 2, return `{"clusters": len(faces), "merged": 0}` untouched; otherwise
cluster and, for each actionable group (label ≠ -1, size ≥ 2), merge into the
member with the most photos.  The empty-`sorted` branch is unreachable in the
source (it would raise an IndexError on `cluster_faces_db[0]`) and is modelled
as a skip; no stated theorem exercises it. -/
def recluster_faces (mix : List Emb → Emb)
    (clusterFn : List Emb → List Nat → List (Int × List Nat)) (db : DB) :
    ReclusterResult × DB :=
  let faces := db.faces.filter (fun f => f.embedding.isSome)
  if faces.length < 2 then ({ clusters := faces.length, merged := 0 }, db)
  else
    let embeddings := faces.filterMap (fun f => f.embedding)
    let face_ids := faces.map (fun f => f.id)
    let clusters := clusterFn embeddings face_ids
    let final := clusters.foldl (fun (p : Nat × DB) cl =>
      if cl.1 == -1 then p
      else if cl.2.length ≤ 1 then p
      else
        let cdb := cl.2.filterMap (fun fid => sessionGetFace p.2 fid)
        match sortByCountDesc cdb with
        | [] => p
        | t :: rest =>
            let sources := rest.map (fun f => f.id)
            if sources.isEmpty then p
            else
              match merge_faces mix t.id sources p.2 with
              | (some r, db2) => (p.1 + r.merged, db2)
              | (none, db2) => (p.1, db2)) (0, db)
    ({ clusters := clusters.length, merged := final.1 }, final.2)

/-! ### Invariants and operation sequences -/

/-- The count invariant: every identity's `photo_count` equals the number of
occurrence links referencing it. -/
def countInv (db : DB) : Prop :=
  ∀ f ∈ db.faces, f.photo_count = linkCount db.links f.id

/-- Identity ids are pairwise distinct (primary keys). -/
def idsNodup (db : DB) : Prop :=
  (db.faces.map (fun f => f.id)).Nodup

/-- Well-formedness of the store: distinct primary keys, and ids (of rows and
of link references) below the fresh-id allocator. -/
def WF (db : DB) : Prop :=
  idsNodup db ∧ (∀ f ∈ db.faces, f.id < db.nextId) ∧
    (∀ pf ∈ db.links, pf.face_id < db.nextId)

instance (db : DB) : Decidable (countInv db) := by
  unfold countInv; infer_instance

instance (db : DB) : Decidable (idsNodup db) := by
  unfold idsNodup; infer_instance

instance (db : DB) : Decidable (WF db) := by
  unfold WF idsNodup; infer_instance

/-- One mutating operation against the identity store: ingesting one photo
(the worker's per-face match-or-create loop) or one administrative merge. -/
inductive Op where
  | ingest (photo_id : Nat) (detected : List Detection)
  | merge (target : Nat) (sources : List Nat)

/-- Run one operation. -/
def execOp (mix : List Emb → Emb) (op : Op) (db : DB) : Option DB :=
  match op with
  | Op.ingest p dets => process_photo mix p dets db
  | Op.merge t s => some (merge_faces mix t s db).2

/-- Run a sequence of operations. -/
def execOps (mix : List Emb → Emb) : List Op → DB → Option DB
  | [], db => some db
  | op :: ops, db =>
      match execOp mix op db with
      | none => none
      | some db2 => execOps mix ops db2

/-- The empty store. -/
def emptyDB : DB := { faces := [], links := [], nextId := 0 }

/-! ### Real-valued model of the normalization arithmetic

Ideal-arithmetic (real-number) model of the floating-point parts:
`np.linalg.norm`, the defensive renormalization at the end of
`FaceEmbedder.embed` (src/server/ai/face_embedder.py, lines 70-74), and the
mean-then-normalize branch of `compute_centroid`
(src/server/ai/face_cluster.py, lines 95-103).  Vectors are `Fin n → ℝ`. -/

/-- Euclidean norm (`np.linalg.norm`). -/
noncomputable def l2normR (n : Nat) (v : Fin n → ℝ) : ℝ :=
  Real.sqrt (∑ i, (v i) ^ 2)

/-- Componentwise mean of a list of vectors (`np.mean(np.stack(vs), axis=0)`). -/
noncomputable def meanVec (n : Nat) (vs : List (Fin n → ℝ)) : Fin n → ℝ :=
  fun i => (vs.map (fun v => v i)).sum / (vs.length : ℝ)

/-- The guarded normalization `if norm > 0: v = v / norm` shared by
`FaceEmbedder.embed` and `compute_centroid`: a vector of positive norm is
scaled to unit length, and anything else (the zero vector) is returned
unchanged. -/
noncomputable def normalizeIfPos (n : Nat) (v : Fin n → ℝ) : Fin n → ℝ :=
  if l2normR n v > 0 then fun i => v i / l2normR n v else v

/-- Real-valued model of `compute_centroid`: a singleton is returned
unchanged; otherwise the componentwise mean is normalized when its norm is
positive. -/
noncomputable def compute_centroidR (n : Nat) : List (Fin n → ℝ) → Fin n → ℝ
  | [v] => v
  | vs => normalizeIfPos n (meanVec n vs)

/-- Unit vector along the first axis: a valid (unit-norm) stored centroid. -/
def axisVec : Fin 2 → ℝ := ![1, 0]

/-- The opposite unit vector: also a valid stored centroid, at cosine
distance 2 from `axisVec`. -/
def axisVecNeg : Fin 2 → ℝ := ![-1, 0]

/-! ### Concrete fixtures used to evaluate the definitions -/

/-- Trivial instantiation of the abstract float-mean parameter, used when a
theorem (which holds for every instantiation) is evaluated concretely. -/
def mixNil : List Emb → Emb := fun _ => []

/-- Trivial instantiation of the external clustering primitive. -/
def clusterNil : List Emb → List Nat → List (Int × List Nat) := fun _ _ => []

/-- A detection payload with the embedding `e`. -/
def detOf (e : Emb) : Detection :=
  { emb := some e, bbox_x := 0, bbox_y := 0, bbox_w := 1, bbox_h := 1,
    confidence := 1 }

/-- A stored identity along the first axis. -/
def face0 : FaceRec :=
  { id := 0, name := none, embedding := some [1, 0], photo_count := 1 }

/-- A stored identity along the second axis. -/
def face1 : FaceRec :=
  { id := 1, name := none, embedding := some [0, 1], photo_count := 1 }

/-- An occurrence link of photo 10 to identity 0. -/
def link0 : PhotoFaceRec :=
  { photo_id := 10, face_id := 0, bbox_x := 0, bbox_y := 0, bbox_w := 1,
    bbox_h := 1, confidence := 1 }

/-- An occurrence link of photo 11 to identity 1. -/
def link1 : PhotoFaceRec :=
  { photo_id := 11, face_id := 1, bbox_x := 0, bbox_y := 0, bbox_w := 1,
    bbox_h := 1, confidence := 1 }

/-- A consistent store holding exactly one identity (with an embedding). -/
def oneFaceDB : DB := { faces := [face0], links := [link0], nextId := 1 }

/-- A consistent store holding two identities with one link each. -/
def twoFaceDB : DB :=
  { faces := [face0, face1], links := [link0, link1], nextId := 2 }

/-! ## Theorems -/

/-! ### Serialization (C4) -/

theorem bytes_to_embedding_word (w : Nat) (rest : List Nat) (hw : w < 2 ^ 32) :
    bytes_to_embedding (wordToBytes w ++ rest) = w :: bytes_to_embedding rest := by
  simp [wordToBytes, bytes_to_embedding]
  omega

theorem wordToBytes_length (w : Nat) : (wordToBytes w).length = 4 := rfl

/-- C4: for every vector of float32 bit patterns, deserializing the
serialized little-endian byte form reproduces the vector bit-for-bit, and the
byte string has length `4 * dim`. -/
theorem serialize_roundtrip_bitexact (v : List Nat) (hv : ∀ w ∈ v, w < 2 ^ 32) :
    bytes_to_embedding (embedding_to_bytes v) = v ∧
      (embedding_to_bytes v).length = 4 * v.length := by
  induction v with
  | nil => simp [embedding_to_bytes, bytes_to_embedding]
  | cons w v ih =>
      have hw : w < 2 ^ 32 := hv w (List.mem_cons_self w v)
      have hv2 : ∀ x ∈ v, x < 2 ^ 32 := fun x hx => hv x (List.mem_cons_of_mem w hx)
      obtain ⟨ih1, ih2⟩ := ih hv2
      constructor
      · simpa [embedding_to_bytes, bytes_to_embedding_word w _ hw] using ih1
      · simp [embedding_to_bytes] at ih2 ⊢
        simp [wordToBytes_length, ih2]
        ring

/-- Witness for C4 at a concrete vector, including the largest 32-bit
pattern. -/
theorem serialize_roundtrip_bitexact_witness :
    bytes_to_embedding (embedding_to_bytes [5, 4294967295, 0]) = [5, 4294967295, 0] ∧
      (embedding_to_bytes [5, 4294967295, 0]).length = 4 * 3 :=
  serialize_roundtrip_bitexact [5, 4294967295, 0] (by decide)

/-! ### Matcher on an empty identity set (C10) -/

/-- C10: with no known identities the matcher returns no match and the fixed
placeholder distance 1, whatever the query, ids and threshold. -/
theorem find_nearest_face_empty_known (embedding : Emb) (ids : List Nat)
    (threshold : ℚ) :
    find_nearest_face embedding [] ids threshold = (none, 1) := rfl

/-! ### Store lookup helpers -/

theorem sessionGetFace_mem {db : DB} {fid : Nat} {t : FaceRec}
    (h : sessionGetFace db fid = some t) : t ∈ db.faces :=
  List.mem_of_find?_eq_some h

theorem sessionGetFace_id {db : DB} {fid : Nat} {t : FaceRec}
    (h : sessionGetFace db fid = some t) : t.id = fid := by
  have := List.find?_some h
  simpa using this

theorem nodup_id_inj {db : DB} (hN : idsNodup db) {f g : FaceRec}
    (hf : f ∈ db.faces) (hg : g ∈ db.faces) (h : f.id = g.id) : f = g :=
  List.inj_on_of_nodup_map hN hf hg h

/-! ### Reclustering guard (C3) -/

/-- C3 (amended): with fewer than 2 identities carrying an embedding, the
reclustering pass is a no-op that performs no merges; its result reports
`merged = 0` and `clusters` equal to the number of such identities (0 or 1) —
not always zero. -/
theorem recluster_lt_two_noop (mix : List Emb → Emb)
    (clusterFn : List Emb → List Nat → List (Int × List Nat)) (db : DB)
    (h : (db.faces.filter (fun f => f.embedding.isSome)).length < 2) :
    recluster_faces mix clusterFn db =
      ({ clusters := (db.faces.filter (fun f => f.embedding.isSome)).length,
         merged := 0 }, db) := by
  unfold recluster_faces
  rw [if_pos h]

/-- Witness for C3 at the one-identity store. -/
theorem recluster_lt_two_noop_witness :
    recluster_faces mixNil clusterNil oneFaceDB =
      ({ clusters := (oneFaceDB.faces.filter (fun f => f.embedding.isSome)).length,
         merged := 0 }, oneFaceDB) :=
  recluster_lt_two_noop mixNil clusterNil oneFaceDB (by decide)

/-- Counterexample to C3 as stated: with exactly one known identity holding an
embedding the pass reports `clusters = 1`, not zero clusters. -/
theorem recluster_one_identity_reports_one_cluster :
    (oneFaceDB.faces.filter (fun f => f.embedding.isSome)).length = 1 ∧
      (recluster_faces mixNil clusterNil oneFaceDB).1.clusters = 1 ∧
      (recluster_faces mixNil clusterNil oneFaceDB).1.clusters ≠ 0 ∧
      (recluster_faces mixNil clusterNil oneFaceDB).1.merged = 0 ∧
      (recluster_faces mixNil clusterNil oneFaceDB).2 = oneFaceDB := by
  refine ⟨rfl, rfl, by decide, rfl, rfl⟩

/-! ### Merge with an empty source list (C7) -/

/-- C7: merging an empty source list into an existing target whose
`photo_count` is accurate returns the target's own data and leaves the store
(centroid and count included) entirely unchanged. -/
theorem merge_empty_sources_noop (mix : List Emb → Emb) (db : DB) (T : Nat)
    (t : FaceRec) (hT : sessionGetFace db T = some t) (hN : idsNodup db)
    (hC : t.photo_count = linkCount db.links T) :
    merge_faces mix T [] db =
      (some { id := T, name := t.name, photo_count := t.photo_count,
              merged := 0 }, db) := by
  have htmem : t ∈ db.faces := sessionGetFace_mem hT
  have htid : t.id = T := sessionGetFace_id hT
  unfold merge_faces
  rw [hT]
  simp only [List.foldl_nil]
  have hemb : (match (match t.embedding with
      | some e => [e]
      | none => ([] : List Emb)) with
      | [] => t.embedding
      | es => some (compute_centroid mix es)) = t.embedding := by
    cases t.embedding with
    | none => rfl
    | some e => rfl
  rw [hemb, ← hC]
  have hmap : db.faces.map (fun f =>
      if f.id == T then
        { f with embedding := t.embedding, photo_count := t.photo_count }
      else f) = db.faces := by
    have := List.map_congr_left (l := db.faces)
      (f := fun f => if f.id == T then
        { f with embedding := t.embedding, photo_count := t.photo_count }
      else f) (g := id) ?_
    · simpa using this
    · intro f hf
      by_cases hid : f.id = T
      · have hft : f = t := nodup_id_inj hN hf htmem (by rw [hid, htid])
        subst hft
        have hbeq : (f.id == T) = true := by simp [hid]
        simp only [hbeq, if_true, id]
      · simp [hid]
  rw [hmap]

/-- Witness for C7 at the one-identity store. -/
theorem merge_empty_sources_noop_witness :
    merge_faces mixNil 0 [] oneFaceDB =
      (some { id := 0, name := none, photo_count := 1, merged := 0 },
       oneFaceDB) :=
  merge_empty_sources_noop mixNil oneFaceDB 0 face0 rfl (by decide) (by decide)

/-! ### Matcher selection (C2) -/

theorem argmaxIdx_lt_length {l : List ℚ} (h : l ≠ []) :
    argmaxIdx l < l.length := by
  induction l with
  | nil => exact absurd rfl h
  | cons x xs ih =>
      unfold argmaxIdx
      by_cases hall : xs.all (fun y => decide (y ≤ x)) = true
      · simp [hall]
      · rw [if_neg (by simpa using hall)]
        have hxs : xs ≠ [] := by
          intro hnil
          exact hall (by simp [hnil])
        have := ih hxs
        simp only [List.length_cons]
        omega

theorem argmaxIdx_spec {l : List ℚ} : ∀ y ∈ l, y ≤ l.getD (argmaxIdx l) 0 := by
  induction l with
  | nil => intro y hy; cases hy
  | cons x xs ih =>
      intro y hy
      unfold argmaxIdx
      by_cases hall : xs.all (fun y => decide (y ≤ x)) = true
      · rw [if_pos (by simpa using hall)]
        simp only [List.getD_cons_zero]
        rcases List.mem_cons.mp hy with rfl | hmem
        · exact le_refl y
        · have := List.all_eq_true.mp hall y hmem
          simpa using this
      · rw [if_neg (by simpa using hall)]
        simp only [List.getD_cons_succ]
        rcases List.mem_cons.mp hy with rfl | hmem
        · have hex : ∃ z ∈ xs, ¬ z ≤ y := by
            by_contra hc
            push_neg at hc
            exact hall (List.all_eq_true.mpr (fun z hz => by
              simpa using hc z hz))
          obtain ⟨z, hz, hzy⟩ := hex
          exact le_trans (le_of_lt (lt_of_not_le hzy)) (ih z hz)
        · exact ih y hmem

theorem getD_map_of_lt (f : Emb → ℚ) (l : List Emb) (i : Nat)
    (h : i < l.length) (d : ℚ) (da : Emb) :
    (l.map f).getD i d = f (l.getD i da) := by
  induction l generalizing i with
  | nil => simp at h
  | cons x xs ih =>
      cases i with
      | zero => simp
      | succ n =>
          simp only [List.map_cons, List.getD_cons_succ]
          exact ih n (by simpa using h)

/-- C2: on a non-empty identity set the matcher returns the minimum cosine
distance over all centroids, pairs it with the id of a minimizing centroid
exactly when that minimum is at most the threshold (inclusive), returns no id
exactly when the minimum exceeds the threshold (so a distance of
`threshold + ε` with `ε > 0` never matches), and the worker's default
threshold is 2/5 = 0.4. -/
theorem find_nearest_face_min_distance (embedding : Emb) (known : List Emb)
    (ids : List Nat) (threshold : ℚ) (hne : known ≠ [])
    (hlen : ids.length = known.length) :
    (find_nearest_face embedding known ids threshold).2 ∈
        known.map (fun k => 1 - dotQ k embedding) ∧
      (∀ d ∈ known.map (fun k => 1 - dotQ k embedding),
        (find_nearest_face embedding known ids threshold).2 ≤ d) ∧
      (∃ i, i < known.length ∧
        1 - dotQ (known.getD i []) embedding =
          (find_nearest_face embedding known ids threshold).2 ∧
        (find_nearest_face embedding known ids threshold).1 =
          (if (find_nearest_face embedding known ids threshold).2 ≤ threshold
           then some (ids.getD i 0) else none)) ∧
      ((find_nearest_face embedding known ids threshold).1 = none ↔
        threshold < (find_nearest_face embedding known ids threshold).2) ∧
      (∀ ε : ℚ, 0 < ε →
        (find_nearest_face embedding known ids threshold).2 = threshold + ε →
        (find_nearest_face embedding known ids threshold).1 = none) ∧
      MATCH_THRESHOLD = 2 / 5 := by
  have hne2 : ¬ (known.isEmpty = true) := by
    simpa [List.isEmpty_iff] using hne
  set q := known.map (fun k => dotQ k embedding) with hq
  set j := argmaxIdx q with hj
  set D := 1 - q.getD j 0 with hD
  have hsims : q ≠ [] := by
    rw [hq]; simpa using hne
  have hbl : j < known.length := by
    have := argmaxIdx_lt_length hsims
    rw [hq, List.length_map] at this
    exact this
  have hval : q.getD j 0 = dotQ (known.getD j []) embedding := by
    rw [hq]
    exact getD_map_of_lt _ _ _ hbl 0 []
  have hr : find_nearest_face embedding known ids threshold =
      (if D ≤ threshold then (some (ids.getD j 0), D) else (none, D)) := by
    unfold find_nearest_face
    rw [if_neg hne2]
  have hsnd : (find_nearest_face embedding known ids threshold).2 = D := by
    rw [hr]; split <;> rfl
  have hfst : (find_nearest_face embedding known ids threshold).1 =
      (if D ≤ threshold then some (ids.getD j 0) else none) := by
    rw [hr]; split <;> rfl
  refine ⟨?_, ?_, ?_, ?_, ?_, rfl⟩
  · rw [hsnd, hD, hval]
    have hmem : known.getD j [] ∈ known := by
      rw [List.getD_eq_getElem known [] hbl]
      exact List.getElem_mem hbl
    exact List.mem_map.mpr ⟨_, hmem, rfl⟩
  · intro d hd
    obtain ⟨k, hk, rfl⟩ := List.mem_map.mp hd
    have hmemq : dotQ k embedding ∈ q := by
      rw [hq]
      exact List.mem_map.mpr ⟨k, hk, rfl⟩
    have hspec := argmaxIdx_spec (dotQ k embedding) hmemq
    rw [hsnd, hD]
    have : dotQ k embedding ≤ q.getD j 0 := by rw [hj]; exact hspec
    linarith
  · refine ⟨j, hbl, ?_, ?_⟩
    · rw [hsnd, hD, hval]
    · rw [hfst, hsnd]
  · rw [hfst, hsnd]
    by_cases hth : D ≤ threshold
    · rw [if_pos hth]
      constructor
      · intro hcontra; cases hcontra
      · intro hlt; linarith
    · rw [if_neg hth]
      constructor
      · intro _; exact lt_of_not_le hth
      · intro _; rfl
  · intro ε hε heq
    rw [hsnd] at heq
    rw [hfst]
    have hgt : ¬ (D ≤ threshold) := by
      rw [heq]
      intro hle
      linarith
    rw [if_neg hgt]

/-- Witness for C2 with two known centroids: the second is nearer and within
the threshold. -/
theorem find_nearest_face_min_distance_witness :
    (find_nearest_face [0, 1] [[1, 0], [0, 1]] [7, 8] MATCH_THRESHOLD).2 ∈
        [[1, 0], [0, 1]].map (fun k => 1 - dotQ k [0, 1]) ∧
      (∀ d ∈ [[1, 0], [0, 1]].map (fun k => 1 - dotQ k [0, 1]),
        (find_nearest_face [0, 1] [[1, 0], [0, 1]] [7, 8] MATCH_THRESHOLD).2 ≤ d) ∧
      (∃ i, i < ([[1, 0], [0, 1]] : List Emb).length ∧
        1 - dotQ (([[1, 0], [0, 1]] : List Emb).getD i []) [0, 1] =
          (find_nearest_face [0, 1] [[1, 0], [0, 1]] [7, 8] MATCH_THRESHOLD).2 ∧
        (find_nearest_face [0, 1] [[1, 0], [0, 1]] [7, 8] MATCH_THRESHOLD).1 =
          (if (find_nearest_face [0, 1] [[1, 0], [0, 1]] [7, 8]
              MATCH_THRESHOLD).2 ≤ MATCH_THRESHOLD
           then some (([7, 8] : List Nat).getD i 0) else none)) ∧
      ((find_nearest_face [0, 1] [[1, 0], [0, 1]] [7, 8] MATCH_THRESHOLD).1 =
          none ↔ MATCH_THRESHOLD <
        (find_nearest_face [0, 1] [[1, 0], [0, 1]] [7, 8] MATCH_THRESHOLD).2) ∧
      (∀ ε : ℚ, 0 < ε →
        (find_nearest_face [0, 1] [[1, 0], [0, 1]] [7, 8] MATCH_THRESHOLD).2 =
          MATCH_THRESHOLD + ε →
        (find_nearest_face [0, 1] [[1, 0], [0, 1]] [7, 8] MATCH_THRESHOLD).1 =
          none) ∧
      MATCH_THRESHOLD = 2 / 5 :=
  find_nearest_face_min_distance [0, 1] [[1, 0], [0, 1]] [7, 8] MATCH_THRESHOLD
    (by decide) (by decide)

/-! ### Normalization arithmetic (C8) -/

theorem sumSq_pos_of_ne_zero {n : Nat} {v : Fin n → ℝ}
    (hv : v ≠ fun _ => 0) : 0 < ∑ i, (v i) ^ 2 := by
  have hnn : ∀ i ∈ Finset.univ, (0 : ℝ) ≤ (v i) ^ 2 := fun i _ => sq_nonneg _
  have hex : ∃ i ∈ Finset.univ, (0 : ℝ) < (v i) ^ 2 := by
    by_contra hc
    push_neg at hc
    apply hv
    funext i
    have h1 := hc i (Finset.mem_univ i)
    have h2 : (v i) ^ 2 = 0 := le_antisymm h1 (sq_nonneg _)
    exact pow_eq_zero_iff (two_ne_zero) |>.mp h2
  exact Finset.sum_pos' hnn hex

theorem norm_normalizeIfPos {n : Nat} (v : Fin n → ℝ)
    (hv : v ≠ fun _ => 0) : l2normR n (normalizeIfPos n v) = 1 := by
  have hs : 0 < ∑ i, (v i) ^ 2 := sumSq_pos_of_ne_zero hv
  have hm : 0 < l2normR n v := Real.sqrt_pos.mpr hs
  have hm2 : (l2normR n v) ^ 2 = ∑ i, (v i) ^ 2 := Real.sq_sqrt (le_of_lt hs)
  unfold normalizeIfPos
  rw [if_pos hm]
  show Real.sqrt (∑ i, (v i / l2normR n v) ^ 2) = 1
  have hsum : ∑ i, (v i / l2normR n v) ^ 2 =
      (∑ i, (v i) ^ 2) / (l2normR n v) ^ 2 := by
    rw [Finset.sum_div]
    exact Finset.sum_congr rfl (fun i _ => div_pow (v i) (l2normR n v) 2)
  rw [hsum, ← hm2, div_self (by positivity)]
  exact Real.sqrt_one

theorem l2normR_zero_vec (n : Nat) : l2normR n (fun _ => 0) = 0 := by
  unfold l2normR
  simp

/-- C8 (amended): the defensive renormalization of the embedder and the
centroid computation produce unit-norm vectors whenever the vector being
normalized is nonzero — for the centroid, whenever the componentwise mean of
the merged (unit) embeddings is nonzero.  When that mean is the zero vector
(reachable, since an administrative merge may combine identities with
antipodal centroids), the `norm > 0` guard leaves the zero vector in place,
whose norm is 0, not 1. -/
theorem normalized_outputs_unit_norm (n : Nat) (vs : List (Fin n → ℝ))
    (hne : vs ≠ []) (hunit : ∀ u ∈ vs, l2normR n u = 1)
    (hmean : 2 ≤ vs.length → meanVec n vs ≠ fun _ => 0) :
    (∀ v : Fin n → ℝ, v ≠ (fun _ => 0) → l2normR n (normalizeIfPos n v) = 1) ∧
      l2normR n (compute_centroidR n vs) = 1 := by
  refine ⟨fun v hv => norm_normalizeIfPos v hv, ?_⟩
  match vs, hne with
  | [v], _ =>
      have : compute_centroidR n [v] = v := rfl
      rw [this]
      exact hunit v (List.mem_cons_self v [])
  | v :: w :: rest, _ =>
      have hred : compute_centroidR n (v :: w :: rest) =
          normalizeIfPos n (meanVec n (v :: w :: rest)) := rfl
      rw [hred]
      exact norm_normalizeIfPos _ (hmean (by simp only [List.length_cons]; omega))

/-- Witness for C8 (amended) at the one-element list holding the unit vector
`axisVec`. -/
theorem normalized_outputs_unit_norm_witness :
    (∀ v : Fin 2 → ℝ, v ≠ (fun _ => 0) →
      l2normR 2 (normalizeIfPos 2 v) = 1) ∧
      l2normR 2 (compute_centroidR 2 [axisVec]) = 1 :=
  normalized_outputs_unit_norm 2 [axisVec] (by simp)
    (by
      intro u hu
      have : u = axisVec := by simpa using hu
      subst this
      show Real.sqrt (∑ i, (axisVec i) ^ 2) = 1
      rw [Fin.sum_univ_two]
      simp [axisVec])
    (by intro h; simp at h)

/-- Counterexample to C8 as stated: merging the two valid unit centroids
`axisVec` and `axisVecNeg` makes `compute_centroid` return the zero vector,
whose L2 norm is 0, not 1 within any tolerance. -/
theorem merged_centroid_zero_norm :
    l2normR 2 axisVec = 1 ∧ l2normR 2 axisVecNeg = 1 ∧
      compute_centroidR 2 [axisVec, axisVecNeg] = (fun _ => 0) ∧
      l2normR 2 (compute_centroidR 2 [axisVec, axisVecNeg]) = 0 := by
  have h1 : l2normR 2 axisVec = 1 := by
    show Real.sqrt (∑ i, (axisVec i) ^ 2) = 1
    rw [Fin.sum_univ_two]
    simp [axisVec]
  have h2 : l2normR 2 axisVecNeg = 1 := by
    show Real.sqrt (∑ i, (axisVecNeg i) ^ 2) = 1
    rw [Fin.sum_univ_two]
    simp [axisVecNeg]
  have hmean : meanVec 2 [axisVec, axisVecNeg] = (fun _ => 0) := by
    funext i
    fin_cases i <;> simp [meanVec, axisVec, axisVecNeg]
  have hc : compute_centroidR 2 [axisVec, axisVecNeg] = (fun _ => 0) := by
    have hred : compute_centroidR 2 [axisVec, axisVecNeg] =
        normalizeIfPos 2 (meanVec 2 [axisVec, axisVecNeg]) := rfl
    rw [hred, hmean]
    unfold normalizeIfPos
    rw [if_neg (by rw [l2normR_zero_vec]; exact lt_irrefl 0)]
  exact ⟨h1, h2, hc, by rw [hc]; exact l2normR_zero_vec 2⟩

/-! ### Link reassignment and row deletion -/

theorem linkCount_reassign_src {src tgt : Nat} (links : List PhotoFaceRec)
    (h : src ≠ tgt) : linkCount (reassignLinks src tgt links) src = 0 := by
  induction links with
  | nil => rfl
  | cons pf links ih =>
      by_cases hpf : pf.face_id = src
      · simp only [reassignLinks, List.map_cons] at *
        rw [if_pos (by simpa using hpf)]
        simp only [linkCount, List.countP_cons] at *
        rw [ih]
        simp [Ne.symm h]
      · simp only [reassignLinks, List.map_cons] at *
        rw [if_neg (by simpa using hpf)]
        simp only [linkCount, List.countP_cons] at *
        rw [ih]
        simp [hpf]

theorem linkCount_reassign_tgt {src tgt : Nat} (links : List PhotoFaceRec)
    (h : src ≠ tgt) :
    linkCount (reassignLinks src tgt links) tgt =
      linkCount links tgt + linkCount links src := by
  induction links with
  | nil => rfl
  | cons pf links ih =>
      by_cases hpf : pf.face_id = src
      · simp only [reassignLinks, List.map_cons] at *
        rw [if_pos (by simpa using hpf)]
        simp only [linkCount, List.countP_cons] at *
        rw [ih]
        simp only [hpf]
        simp [h, Ne.symm h]
        omega
      · simp only [reassignLinks, List.map_cons] at *
        rw [if_neg (by simpa using hpf)]
        simp only [linkCount, List.countP_cons] at *
        rw [ih]
        by_cases htg : pf.face_id = tgt
        · simp [htg, hpf, h, Ne.symm h]
          omega
        · simp [htg, hpf]

theorem linkCount_reassign_other {src tgt x : Nat} (links : List PhotoFaceRec)
    (hx1 : x ≠ src) (hx2 : x ≠ tgt) :
    linkCount (reassignLinks src tgt links) x = linkCount links x := by
  induction links with
  | nil => rfl
  | cons pf links ih =>
      by_cases hpf : pf.face_id = src
      · simp only [reassignLinks, List.map_cons] at *
        rw [if_pos (by simpa using hpf)]
        simp only [linkCount, List.countP_cons] at *
        rw [ih]
        simp [Ne.symm hx2, hpf, Ne.symm hx1]
      · simp only [reassignLinks, List.map_cons] at *
        rw [if_neg (by simpa using hpf)]
        simp only [linkCount, List.countP_cons] at *
        rw [ih]

theorem reassign_mem {src tgt : Nat} {links : List PhotoFaceRec}
    {pf : PhotoFaceRec} (h : pf ∈ reassignLinks src tgt links) :
    pf.face_id = tgt ∨ ∃ pf0 ∈ links, pf = pf0 := by
  obtain ⟨pf0, hpf0, heq⟩ := List.mem_map.mp h
  by_cases hc : pf0.face_id = src
  · left
    rw [← heq]
    simp [hc]
  · right
    refine ⟨pf0, hpf0, ?_⟩
    rw [← heq]
    simp [hc]

theorem mem_eraseP_of_not_sat {l : List FaceRec} {p : FaceRec → Bool}
    {a : FaceRec} (ha : a ∈ l) (hp : p a = false) : a ∈ l.eraseP p := by
  induction l with
  | nil => cases ha
  | cons b l ih =>
      by_cases hb : p b = true
      · rw [List.eraseP_cons_of_pos hb]
        rcases List.mem_cons.mp ha with rfl | hmem
        · rw [hp] at hb; cases hb
        · exact hmem
      · rw [List.eraseP_cons_of_neg (by simpa using hb)]
        rcases List.mem_cons.mp ha with rfl | hmem
        · exact List.mem_cons_self a _
        · exact List.mem_cons_of_mem b (ih hmem)

theorem eraseFace_subset {src : Nat} {faces : List FaceRec} {f : FaceRec}
    (h : f ∈ eraseFace src faces) : f ∈ faces :=
  List.mem_of_mem_eraseP h

theorem eraseFace_ids_nodup {src : Nat} {faces : List FaceRec}
    (h : (faces.map (fun f => f.id)).Nodup) :
    ((eraseFace src faces).map (fun f => f.id)).Nodup :=
  List.Nodup.sublist (List.Sublist.map _ (List.eraseP_sublist _)) h

theorem eraseFace_id_ne {src : Nat} {faces : List FaceRec}
    (hN : (faces.map (fun f => f.id)).Nodup) :
    ∀ g ∈ eraseFace src faces, g.id ≠ src := by
  induction faces with
  | nil => intro g hg; cases hg
  | cons f faces ih =>
      intro g hg
      have hN2 : (f.id :: faces.map (fun f => f.id)).Nodup := by
        simpa only [List.map_cons] using hN
      by_cases hf : f.id = src
      · rw [eraseFace, List.eraseP_cons_of_pos (by simpa using hf)] at hg
        intro hgid
        have hfn : f.id ∉ faces.map (fun f => f.id) :=
          (List.nodup_cons.mp hN2).1
        exact hfn (by
          rw [hf, ← hgid]
          exact List.mem_map.mpr ⟨g, hg, rfl⟩)
      · rw [eraseFace, List.eraseP_cons_of_neg (by simpa using hf)] at hg
        rcases List.mem_cons.mp hg with rfl | hmem
        · exact hf
        · exact ih (List.nodup_cons.mp hN2).2 g hmem

theorem find?_id_isSome_of_mem {faces : List FaceRec} {s : Nat} {g : FaceRec}
    (hg : g ∈ faces) (hid : g.id = s) :
    (faces.find? (fun f => f.id == s)).isSome :=
  List.find?_isSome.mpr ⟨g, hg, by simp [hid]⟩

/-! ### The merge source loop -/

theorem mergeStep_skip_target (T : Nat) (acc : MergeAcc) :
    mergeStep T acc T = acc := by
  simp [mergeStep]

theorem mergeStep_skip_missing (T : Nat) (acc : MergeAcc) (s : Nat)
    (h : acc.faces.find? (fun f => f.id == s) = none) :
    mergeStep T acc s = acc := by
  unfold mergeStep
  by_cases hst : (s == T) = true
  · rw [if_pos hst]
  · rw [if_neg hst, h]

theorem mergeStep_found (T : Nat) (acc : MergeAcc) (s : Nat) (source : FaceRec)
    (hne : s ≠ T) (h : acc.faces.find? (fun f => f.id == s) = some source) :
    mergeStep T acc s =
      { faces := eraseFace s acc.faces
        links := reassignLinks s T acc.links
        merged := acc.merged + linkCount acc.links s
        embs := acc.embs ++ (match source.embedding with
          | some e => [e]
          | none => []) } := by
  unfold mergeStep
  rw [if_neg (by simpa using hne), h]

theorem mergeLoop_counts (T : Nat) (S : List Nat) :
    ∀ acc : MergeAcc, S.Nodup →
    (acc.faces.map (fun f => f.id)).Nodup →
    (∀ s ∈ S, s ≠ T ∧ ∃ g ∈ acc.faces, g.id = s) →
    (∀ s ∈ S, linkCount (S.foldl (mergeStep T) acc).links s = 0) ∧
      linkCount (S.foldl (mergeStep T) acc).links T =
        linkCount acc.links T + (S.map (fun s => linkCount acc.links s)).sum ∧
      (∀ x, x ≠ T → x ∉ S →
        linkCount (S.foldl (mergeStep T) acc).links x = linkCount acc.links x) ∧
      ((S.foldl (mergeStep T) acc).faces.map (fun f => f.id)).Nodup := by
  induction S with
  | nil =>
      intro acc _ hA _
      refine ⟨?_, ?_, ?_, hA⟩
      · intro s hs
        cases hs
      · simp
      · intro x _ _
        rfl
  | cons s S ih =>
      intro acc hnd hA hex
      have hsT : s ≠ T := (hex s (List.mem_cons_self s S)).1
      obtain ⟨g, hgmem, hgid⟩ := (hex s (List.mem_cons_self s S)).2
      obtain ⟨source, hsource⟩ := Option.isSome_iff_exists.mp
        (find?_id_isSome_of_mem hgmem hgid)
      have hstep := mergeStep_found T acc s source hsT hsource
      have hl1 : (mergeStep T acc s).links = reassignLinks s T acc.links := by
        rw [hstep]
      have hf1 : (mergeStep T acc s).faces = eraseFace s acc.faces := by
        rw [hstep]
      have hA1 : ((mergeStep T acc s).faces.map (fun f => f.id)).Nodup := by
        rw [hf1]
        exact eraseFace_ids_nodup hA
      have hnd2 : S.Nodup := (List.nodup_cons.mp hnd).2
      have hsnotin : s ∉ S := (List.nodup_cons.mp hnd).1
      have hex1 : ∀ u ∈ S, u ≠ T ∧ ∃ g2 ∈ (mergeStep T acc s).faces, g2.id = u := by
        intro u hu
        refine ⟨(hex u (List.mem_cons_of_mem s hu)).1, ?_⟩
        obtain ⟨g2, hg2, hg2id⟩ := (hex u (List.mem_cons_of_mem s hu)).2
        have hus : u ≠ s := fun he => hsnotin (he ▸ hu)
        refine ⟨g2, ?_, hg2id⟩
        rw [hf1]
        exact mem_eraseP_of_not_sat hg2 (by simp [hg2id, hus])
      obtain ⟨IH1, IH2, IH3, IH4⟩ := ih (mergeStep T acc s) hnd2 hA1 hex1
      have hfold : (s :: S).foldl (mergeStep T) acc =
          S.foldl (mergeStep T) (mergeStep T acc s) := rfl
      rw [hfold]
      refine ⟨?_, ?_, ?_, IH4⟩
      · intro u hu
        rcases List.mem_cons.mp hu with rfl | humem
        · rw [IH3 u hsT hsnotin, hl1]
          exact linkCount_reassign_src acc.links hsT
        · exact IH1 u humem
      · have hsum : (S.map (fun u => linkCount (mergeStep T acc s).links u)).sum =
            (S.map (fun u => linkCount acc.links u)).sum := by
          have hcong : ∀ u ∈ S, linkCount (mergeStep T acc s).links u =
              linkCount acc.links u := by
            intro u hu
            have hus : u ≠ s := fun he => hsnotin (he ▸ hu)
            have huT : u ≠ T := (hex u (List.mem_cons_of_mem s hu)).1
            rw [hl1]
            exact linkCount_reassign_other acc.links hus huT
          rw [List.map_congr_left hcong]
        rw [IH2, hsum, hl1, linkCount_reassign_tgt acc.links hsT,
          List.map_cons, List.sum_cons]
        omega
      · intro x hxT hxmem
        have hxs : x ≠ s := fun he => hxmem (by rw [he]; exact List.mem_cons_self s S)
        have hxS : x ∉ S := fun hc => hxmem (List.mem_cons_of_mem s hc)
        rw [IH3 x hxT hxS, hl1]
        exact linkCount_reassign_other acc.links hxs hxT

/-! ### Merge completeness (C5) -/

/-- C5: merging distinct existing sources `S` (all different from the target)
into an existing target `T` of a consistent store leaves no occurrence link
referencing any id in `S`, and the target's resulting `photo_count` equals its
`photo_count` before plus the sum of the sources' `photo_count`s before. -/
theorem merge_completeness (mix : List Emb → Emb) (db : DB) (T : Nat)
    (S : List Nat) (t : FaceRec) (hT : sessionGetFace db T = some t)
    (hS : S.Nodup) (hsrc : ∀ s ∈ S, s ≠ T ∧ ∃ g ∈ db.faces, g.id = s)
    (hN : idsNodup db) (hInv : countInv db) :
    (∀ s ∈ S, linkCount (merge_faces mix T S db).2.links s = 0) ∧
      ∃ r, (merge_faces mix T S db).1 = some r ∧
        r.photo_count = t.photo_count +
          (S.map (fun s => photoCountOf db s)).sum ∧
        ∀ f ∈ (merge_faces mix T S db).2.faces, f.id = T →
          f.photo_count = r.photo_count := by
  set acc0 : MergeAcc :=
    { faces := db.faces, links := db.links, merged := 0
      embs := match t.embedding with
        | some e => [e]
        | none => [] } with hacc0
  set acc := S.foldl (mergeStep T) acc0 with haccdef
  set newEmb : Option Emb := (match acc.embs with
    | [] => t.embedding
    | es => some (compute_centroid mix es)) with hnewEmb
  set cnt := linkCount acc.links T with hcnt
  have hmf : merge_faces mix T S db =
      (some { id := T, name := t.name, photo_count := cnt,
              merged := acc.merged },
       { faces := acc.faces.map (fun f =>
           if f.id == T then { f with embedding := newEmb, photo_count := cnt }
           else f)
         links := acc.links, nextId := db.nextId }) := by
    unfold merge_faces
    rw [hT]
  obtain ⟨hz, htc, _, _⟩ := mergeLoop_counts T S acc0 hS hN
    (fun s hs => hsrc s hs)
  have ht2 : t.photo_count = linkCount db.links T := by
    have := hInv t (sessionGetFace_mem hT)
    rw [this, sessionGetFace_id hT]
  have hpc : ∀ s ∈ S, photoCountOf db s = linkCount db.links s := by
    intro s hs
    obtain ⟨g, hg, hgid⟩ := (hsrc s hs).2
    obtain ⟨g2, hg2⟩ := Option.isSome_iff_exists.mp
      (find?_id_isSome_of_mem hg hgid)
    have hg2s : sessionGetFace db s = some g2 := hg2
    have hval : photoCountOf db s = g2.photo_count := by
      rw [photoCountOf, hg2s]
      rfl
    rw [hval, hInv g2 (sessionGetFace_mem hg2s), sessionGetFace_id hg2s]
  refine ⟨?_, ?_⟩
  · intro s hs
    rw [hmf]
    exact hz s hs
  · refine ⟨⟨T, t.name, cnt, acc.merged⟩, by rw [hmf], ?_, ?_⟩
    · show cnt = t.photo_count + (S.map (fun s => photoCountOf db s)).sum
      have hmaps : S.map (fun s => photoCountOf db s) =
          S.map (fun s => linkCount db.links s) :=
        List.map_congr_left hpc
      rw [hcnt, htc, ← ht2, hmaps]
    · intro f hf hfT
      rw [hmf] at hf
      obtain ⟨f0, hf0, heq⟩ := List.mem_map.mp hf
      by_cases hid : (f0.id == T) = true
      · rw [if_pos hid] at heq
        rw [← heq]
      · rw [if_neg hid] at heq
        rw [← heq] at hfT
        exact absurd (by simp [hfT]) hid

/-- Witness for C5: merging identity 1 into identity 0 in the two-identity
store. -/
theorem merge_completeness_witness :
    (∀ s ∈ [1], linkCount (merge_faces mixNil 0 [1] twoFaceDB).2.links s = 0) ∧
      ∃ r, (merge_faces mixNil 0 [1] twoFaceDB).1 = some r ∧
        r.photo_count = face0.photo_count +
          (([1] : List Nat).map (fun s => photoCountOf twoFaceDB s)).sum ∧
        ∀ f ∈ (merge_faces mixNil 0 [1] twoFaceDB).2.faces, f.id = 0 →
          f.photo_count = r.photo_count :=
  merge_completeness mixNil twoFaceDB 0 [1] face0 rfl (by decide) (by decide)
    (by decide) (by decide)

/-! ### Merge error handling (C6) -/

/-- C6: the merge returns the not-found outcome exactly when the target id
does not exist, in which case the store is unchanged; a source equal to the
target or absent from the store is skipped without effect; and a repeated
source id in the list behaves as if listed once, so the operation is safe to
retry. -/
theorem merge_not_found_and_skips (mix : List Emb → Emb) (T : Nat)
    (S : List Nat) (db : DB) (hN : idsNodup db) :
    ((merge_faces mix T S db).1 = none ↔ sessionGetFace db T = none) ∧
      (sessionGetFace db T = none → (merge_faces mix T S db).2 = db) ∧
      (∀ acc : MergeAcc, ∀ s,
        (s = T ∨ acc.faces.find? (fun f => f.id == s) = none) →
        mergeStep T acc s = acc) ∧
      (∀ s rest, merge_faces mix T (s :: s :: rest) db =
        merge_faces mix T (s :: rest) db) := by
  have hskip : ∀ acc : MergeAcc, ∀ s,
      (s = T ∨ acc.faces.find? (fun f => f.id == s) = none) →
      mergeStep T acc s = acc := by
    intro acc s hs
    rcases hs with rfl | hnone
    · exact mergeStep_skip_target _ acc
    · exact mergeStep_skip_missing _ acc s hnone
  have hdup : ∀ s rest, merge_faces mix T (s :: s :: rest) db =
      merge_faces mix T (s :: rest) db := by
    intro s rest
    cases h : sessionGetFace db T with
    | none =>
        unfold merge_faces
        rw [h]
    | some t =>
        have hstep2 : ∀ acc0 : MergeAcc, acc0.faces = db.faces →
            mergeStep T (mergeStep T acc0 s) s = mergeStep T acc0 s := by
          intro acc0 hfaces
          by_cases hsT : s = T
          · subst hsT
            rw [mergeStep_skip_target, mergeStep_skip_target]
          · cases hf : acc0.faces.find? (fun f => f.id == s) with
            | none =>
                rw [mergeStep_skip_missing T acc0 s hf,
                  mergeStep_skip_missing T acc0 s hf]
            | some source =>
                apply mergeStep_skip_missing
                rw [mergeStep_found T acc0 s source hsT hf]
                apply List.find?_eq_none.mpr
                intro a ha
                have hane : a.id ≠ s := by
                  refine eraseFace_id_ne ?_ a ha
                  rw [hfaces]
                  exact hN
                simpa using hane
        have hfold : ∀ (l : List PhotoFaceRec) (m : Nat) (e : List Emb),
            List.foldl (mergeStep T) ⟨db.faces, l, m, e⟩ (s :: s :: rest) =
              List.foldl (mergeStep T) ⟨db.faces, l, m, e⟩ (s :: rest) := by
          intro l m e
          show List.foldl (mergeStep T)
            (mergeStep T (mergeStep T ⟨db.faces, l, m, e⟩ s) s) rest =
            List.foldl (mergeStep T) (mergeStep T ⟨db.faces, l, m, e⟩ s) rest
          rw [hstep2 ⟨db.faces, l, m, e⟩ rfl]
        unfold merge_faces
        simp only [h]
        rw [hfold]
  refine ⟨?_, ?_, hskip, hdup⟩
  · cases h : sessionGetFace db T with
    | none =>
        constructor
        · intro _
          rfl
        · intro _
          unfold merge_faces
          rw [h]
    | some t =>
        constructor
        · intro hc
          have : (merge_faces mix T S db).1.isSome = true := by
            unfold merge_faces
            rw [h]
            rfl
          rw [hc] at this
          cases this
        · intro hc
          cases hc
  · intro h
    unfold merge_faces
    rw [h]

/-- Witness for C6 at a missing target id in the two-identity store. -/
theorem merge_not_found_and_skips_witness :
    ((merge_faces mixNil 5 [0] twoFaceDB).1 = none ↔
        sessionGetFace twoFaceDB 5 = none) ∧
      (sessionGetFace twoFaceDB 5 = none →
        (merge_faces mixNil 5 [0] twoFaceDB).2 = twoFaceDB) ∧
      (∀ acc : MergeAcc, ∀ s,
        (s = 5 ∨ acc.faces.find? (fun f => f.id == s) = none) →
        mergeStep 5 acc s = acc) ∧
      (∀ s rest, merge_faces mixNil 5 (s :: s :: rest) twoFaceDB =
        merge_faces mixNil 5 (s :: rest) twoFaceDB) :=
  merge_not_found_and_skips mixNil 5 [0] twoFaceDB (by decide)

/-! ### Preservation of the count invariant by merges -/

theorem mergeStep_wf (T N : Nat) (acc : MergeAcc) (s : Nat)
    (hA : (acc.faces.map (fun f => f.id)).Nodup)
    (hB : ∀ f ∈ acc.faces, f.id ≠ T →
      f.photo_count = linkCount acc.links f.id)
    (hF1 : ∀ f ∈ acc.faces, f.id < N)
    (hF2 : ∀ pf ∈ acc.links, pf.face_id < N) (hT : T < N) :
    ((mergeStep T acc s).faces.map (fun f => f.id)).Nodup ∧
      (∀ f ∈ (mergeStep T acc s).faces, f.id ≠ T →
        f.photo_count = linkCount (mergeStep T acc s).links f.id) ∧
      (∀ f ∈ (mergeStep T acc s).faces, f.id < N) ∧
      (∀ pf ∈ (mergeStep T acc s).links, pf.face_id < N) := by
  by_cases hsT : (s == T) = true
  · rw [show mergeStep T acc s = acc from by unfold mergeStep; rw [if_pos hsT]]
    exact ⟨hA, hB, hF1, hF2⟩
  · cases hf : acc.faces.find? (fun f => f.id == s) with
    | none =>
        rw [mergeStep_skip_missing T acc s hf]
        exact ⟨hA, hB, hF1, hF2⟩
    | some source =>
        have hsT2 : s ≠ T := by simpa using hsT
        rw [mergeStep_found T acc s source hsT2 hf]
        refine ⟨eraseFace_ids_nodup hA, ?_, ?_, ?_⟩
        · intro f hf2 hfT
          have hfmem : f ∈ acc.faces := eraseFace_subset hf2
          have hfs : f.id ≠ s := eraseFace_id_ne hA f hf2
          show f.photo_count = linkCount (reassignLinks s T acc.links) f.id
          rw [linkCount_reassign_other acc.links hfs hfT]
          exact hB f hfmem hfT
        · intro f hf2
          exact hF1 f (eraseFace_subset hf2)
        · intro pf hpf
          rcases reassign_mem hpf with hTid | ⟨pf0, hpf0, heq⟩
          · rw [hTid]
            exact hT
          · rw [heq]
            exact hF2 pf0 hpf0

theorem mergeLoop_wf (T N : Nat) (S : List Nat) :
    ∀ acc : MergeAcc,
    (acc.faces.map (fun f => f.id)).Nodup →
    (∀ f ∈ acc.faces, f.id ≠ T → f.photo_count = linkCount acc.links f.id) →
    (∀ f ∈ acc.faces, f.id < N) →
    (∀ pf ∈ acc.links, pf.face_id < N) → T < N →
    ((S.foldl (mergeStep T) acc).faces.map (fun f => f.id)).Nodup ∧
      (∀ f ∈ (S.foldl (mergeStep T) acc).faces, f.id ≠ T →
        f.photo_count = linkCount (S.foldl (mergeStep T) acc).links f.id) ∧
      (∀ f ∈ (S.foldl (mergeStep T) acc).faces, f.id < N) ∧
      (∀ pf ∈ (S.foldl (mergeStep T) acc).links, pf.face_id < N) := by
  induction S with
  | nil =>
      intro acc hA hB hF1 hF2 _
      exact ⟨hA, hB, hF1, hF2⟩
  | cons s S ih =>
      intro acc hA hB hF1 hF2 hT
      obtain ⟨hA1, hB1, hF11, hF21⟩ := mergeStep_wf T N acc s hA hB hF1 hF2 hT
      exact ih (mergeStep T acc s) hA1 hB1 hF11 hF21 hT

theorem merge_preserves_inv (mix : List Emb → Emb) (T : Nat) (S : List Nat)
    (db : DB) (hWF : WF db) (hInv : countInv db) :
    countInv (merge_faces mix T S db).2 ∧ WF (merge_faces mix T S db).2 := by
  obtain ⟨hA, hF1, hF2⟩ := hWF
  cases h : sessionGetFace db T with
  | none =>
      have : (merge_faces mix T S db).2 = db := by
        unfold merge_faces
        rw [h]
      rw [this]
      exact ⟨hInv, hA, hF1, hF2⟩
  | some t =>
      have hTlt : T < db.nextId := by
        rw [← sessionGetFace_id h]
        exact hF1 t (sessionGetFace_mem h)
      set acc0 : MergeAcc :=
        { faces := db.faces, links := db.links, merged := 0
          embs := match t.embedding with
            | some e => [e]
            | none => [] } with hacc0
      set acc := S.foldl (mergeStep T) acc0 with haccdef
      set newEmb : Option Emb := (match acc.embs with
        | [] => t.embedding
        | es => some (compute_centroid mix es)) with hnewEmb
      set cnt := linkCount acc.links T with hcnt
      have hmf : (merge_faces mix T S db).2 =
          { faces := acc.faces.map (fun f =>
              if f.id == T then
                { f with embedding := newEmb, photo_count := cnt }
              else f)
            links := acc.links, nextId := db.nextId } := by
        unfold merge_faces
        rw [h]
      obtain ⟨hA1, hB1, hF11, hF21⟩ := mergeLoop_wf T db.nextId S acc0 hA
        (fun f hf _ => hInv f hf) hF1 hF2 hTlt
      rw [hmf]
      have hidpres : ∀ f0 : FaceRec,
          (if f0.id == T then
            { f0 with embedding := newEmb, photo_count := cnt }
          else f0).id = f0.id := by
        intro f0
        by_cases hc : (f0.id == T) = true
        · rw [if_pos hc]
        · rw [if_neg hc]
      have hids : (acc.faces.map (fun f =>
          if f.id == T then { f with embedding := newEmb, photo_count := cnt }
          else f)).map (fun f => f.id) = acc.faces.map (fun f => f.id) := by
        rw [List.map_map]
        exact List.map_congr_left (fun f0 _ => hidpres f0)
      refine ⟨?_, ?_, ?_, ?_⟩
      · intro f hf2
        obtain ⟨f0, hf0, heq⟩ := List.mem_map.mp hf2
        by_cases hc : (f0.id == T) = true
        · rw [if_pos hc] at heq
          rw [← heq]
          show cnt = linkCount acc.links
            ({ f0 with embedding := newEmb, photo_count := cnt } : FaceRec).id
          have : ({ f0 with embedding := newEmb, photo_count := cnt } :
              FaceRec).id = T := by simpa using hc
          rw [this, hcnt]
        · rw [if_neg hc] at heq
          rw [← heq]
          exact hB1 f0 hf0 (by simpa using hc)
      · show ((acc.faces.map (fun f =>
            if f.id == T then
              { f with embedding := newEmb, photo_count := cnt }
            else f)).map (fun f => f.id)).Nodup
        rw [hids]
        exact hA1
      · intro f hf2
        obtain ⟨f0, hf0, heq⟩ := List.mem_map.mp hf2
        rw [← heq, hidpres f0]
        exact hF11 f0 hf0
      · exact hF21

/-! ### Preservation of the count invariant by ingestion -/

theorem linkCount_append_one (l : List PhotoFaceRec) (lk : PhotoFaceRec)
    (x : Nat) :
    linkCount (l ++ [lk]) x =
      linkCount l x + (if lk.face_id == x then 1 else 0) := by
  simp [linkCount, List.countP_append, List.countP_cons]

theorem processFace_inv (mix : List Emb → Emb) (p : Nat) (st st2 : MatchState)
    (det : Detection) (h : processFace mix p st det = some st2)
    (hWF : WF st.db) (hInv : countInv st.db) : WF st2.db ∧ countInv st2.db := by
  obtain ⟨hA, hF1, hF2⟩ := hWF
  unfold processFace at h
  cases hemb : det.emb with
  | none =>
      simp only [hemb] at h
      injection h with h2
      rw [← h2]
      exact ⟨⟨hA, hF1, hF2⟩, hInv⟩
  | some embedding =>
      simp only [hemb] at h
      cases hm : (find_nearest_face embedding st.known_embeddings
          st.known_ids MATCH_THRESHOLD).1 with
      | some matched =>
          simp only [hm] at h
          cases hg : sessionGetFace st.db matched with
          | none =>
              simp only [hg] at h
              cases h
          | some face =>
              simp only [hg] at h
              injection h with h2
              rw [← h2]
              have hfmem : face ∈ st.db.faces := sessionGetFace_mem hg
              have hfid : face.id = matched := sessionGetFace_id hg
              have hmlt : matched < st.db.nextId := by
                rw [← hfid]
                exact hF1 face hfmem
              set face2 : FaceRec := FaceRec.mk face.id face.name
                (match face.embedding with
                  | some old => some (compute_centroid mix [old, embedding])
                  | none => face.embedding) (face.photo_count + 1) with hface2
              have hface2id : face2.id = matched := hfid
              have hface2count : face2.photo_count = face.photo_count + 1 := rfl
              have hidpres : ∀ f0 : FaceRec,
                  (if f0.id == matched then face2 else f0).id = f0.id := by
                intro f0
                by_cases hc : (f0.id == matched) = true
                · have hc2 : f0.id = matched := by simpa using hc
                  rw [if_pos hc, hface2id]
                  exact hc2.symm
                · rw [if_neg hc]
              refine ⟨⟨?_, ?_, ?_⟩, ?_⟩
              · show ((st.db.faces.map (fun f =>
                  if f.id == matched then face2 else f)).map
                    (fun f => f.id)).Nodup
                rw [List.map_map]
                have hmapeq : st.db.faces.map ((fun f => f.id) ∘ (fun f =>
                    if f.id == matched then face2 else f)) =
                    st.db.faces.map (fun f => f.id) :=
                  List.map_congr_left (fun f0 _ => hidpres f0)
                rw [hmapeq]
                exact hA
              · intro f hf2
                obtain ⟨f0, hf0, heq⟩ := List.mem_map.mp hf2
                rw [← heq, hidpres f0]
                exact hF1 f0 hf0
              · intro pf hpf
                rcases List.mem_append.mp hpf with hold | hnew
                · exact hF2 pf hold
                · have : pf = mkLink p matched det := by simpa using hnew
                  rw [this]
                  exact hmlt
              · intro f hf2
                obtain ⟨f0, hf0, heq⟩ := List.mem_map.mp hf2
                by_cases hc : (f0.id == matched) = true
                · rw [if_pos hc] at heq
                  rw [← heq]
                  show face2.photo_count = linkCount
                    (st.db.links ++ [mkLink p matched det]) face2.id
                  rw [hface2id, linkCount_append_one]
                  have hbeq : (((mkLink p matched det).face_id == matched)) =
                      true := by
                    simp [mkLink]
                  rw [hbeq]
                  rw [hface2count, hInv face hfmem, hfid]
                  simp
                · rw [if_neg hc] at heq
                  rw [← heq]
                  rw [linkCount_append_one]
                  have hbeq : (((mkLink p matched det).face_id == f0.id)) =
                      false := by
                    have hne : f0.id ≠ matched := by simpa using hc
                    simp only [mkLink]
                    exact beq_eq_false_iff_ne.mpr (Ne.symm hne)
                  rw [hbeq]
                  simpa using hInv f0 hf0
      | none =>
          simp only [hm] at h
          injection h with h2
          rw [← h2]
          have hnolink : ∀ pf ∈ st.db.links, pf.face_id ≠ st.db.nextId := by
            intro pf hpf
            exact Nat.ne_of_lt (hF2 pf hpf)
          refine ⟨⟨?_, ?_, ?_⟩, ?_⟩
          · show ((st.db.faces ++
              [FaceRec.mk st.db.nextId none (some embedding) 1]).map
                (fun f => f.id)).Nodup
            rw [List.map_append]
            rw [List.nodup_append]
            refine ⟨hA, by simp, ?_⟩
            intro a ha hb
            have ha2 : a < st.db.nextId := by
              obtain ⟨g, hg2, heq⟩ := List.mem_map.mp ha
              rw [← heq]
              exact hF1 g hg2
            have hb2 : a = st.db.nextId := by simpa using hb
            omega
          · intro f hf2
            rcases List.mem_append.mp hf2 with hold | hnew2
            · have := hF1 f hold
              show f.id < st.db.nextId + 1
              omega
            · have : f = FaceRec.mk st.db.nextId none (some embedding) 1 := by
                simpa using hnew2
              rw [this]
              show st.db.nextId < st.db.nextId + 1
              omega
          · intro pf hpf
            rcases List.mem_append.mp hpf with hold | hnew2
            · have := hF2 pf hold
              show pf.face_id < st.db.nextId + 1
              omega
            · have : pf = mkLink p st.db.nextId det := by simpa using hnew2
              rw [this]
              show st.db.nextId < st.db.nextId + 1
              omega
          · intro f hf2
            rcases List.mem_append.mp hf2 with hold | hnew2
            · rw [linkCount_append_one]
              have hbeq : (((mkLink p st.db.nextId det).face_id == f.id)) =
                  false := by
                have := hF1 f hold
                simp only [mkLink]
                simp
                omega
              rw [hbeq]
              simpa using hInv f hold
            · have hfeq : f = FaceRec.mk st.db.nextId none (some embedding) 1 := by
                simpa using hnew2
              rw [hfeq]
              show 1 = linkCount (st.db.links ++ [mkLink p st.db.nextId det])
                st.db.nextId
              rw [linkCount_append_one]
              have h0 : linkCount st.db.links st.db.nextId = 0 := by
                rw [linkCount, List.countP_eq_zero]
                intro pf hpf
                simpa using hnolink pf hpf
              have h1 : (((mkLink p st.db.nextId det).face_id ==
                  st.db.nextId)) = true := by
                simp [mkLink]
              rw [h0, h1]
              simp

theorem processFaces_inv (mix : List Emb → Emb) (p : Nat)
    (dets : List Detection) :
    ∀ st st2 : MatchState, processFaces mix p dets st = some st2 →
    WF st.db → countInv st.db → WF st2.db ∧ countInv st2.db := by
  induction dets with
  | nil =>
      intro st st2 h hWF hInv
      unfold processFaces at h
      injection h with h2
      rw [← h2]
      exact ⟨hWF, hInv⟩
  | cons d ds ih =>
      intro st st2 h hWF hInv
      unfold processFaces at h
      cases hp : processFace mix p st d with
      | none =>
          rw [hp] at h
          cases h
      | some st1 =>
          rw [hp] at h
          obtain ⟨hWF1, hInv1⟩ := processFace_inv mix p st st1 d hp hWF hInv
          exact ih st1 st2 h hWF1 hInv1

theorem process_photo_inv (mix : List Emb → Emb) (p : Nat)
    (dets : List Detection) (db db' : DB)
    (h : process_photo mix p dets db = some db') (hWF : WF db)
    (hInv : countInv db) : WF db' ∧ countInv db' := by
  unfold process_photo at h
  by_cases h1 : (db.links.any (fun pf => pf.photo_id == p)) = true
  · rw [if_pos h1] at h
    injection h with h2
    rw [← h2]
    exact ⟨hWF, hInv⟩
  · rw [if_neg h1] at h
    by_cases h2 : dets.isEmpty = true
    · rw [if_pos h2] at h
      injection h with h3
      rw [← h3]
      exact ⟨hWF, hInv⟩
    · rw [if_neg h2] at h
      simp only [Option.map_eq_some'] at h
      obtain ⟨st2, hrun, hdb⟩ := h
      rw [← hdb]
      exact processFaces_inv mix p dets _ st2 hrun hWF hInv

theorem execOps_inv (mix : List Emb → Emb) (ops : List Op) :
    ∀ db db' : DB, execOps mix ops db = some db' → WF db → countInv db →
    WF db' ∧ countInv db' := by
  induction ops with
  | nil =>
      intro db db' h hWF hInv
      unfold execOps at h
      injection h with h2
      rw [← h2]
      exact ⟨hWF, hInv⟩
  | cons op ops ih =>
      intro db db' h hWF hInv
      unfold execOps at h
      cases hop : execOp mix op db with
      | none =>
          rw [hop] at h
          cases h
      | some db1 =>
          rw [hop] at h
          have hstep : WF db1 ∧ countInv db1 := by
            cases op with
            | ingest p dets =>
                exact process_photo_inv mix p dets db db1 hop hWF hInv
            | merge t s =>
                have hm : (merge_faces mix t s db).2 = db1 := by
                  injection hop
                rw [← hm]
                obtain ⟨hInv2, hWF2⟩ := merge_preserves_inv mix t s db
                  ⟨hWF.1, hWF.2.1, hWF.2.2⟩ hInv
                exact ⟨hWF2, hInv2⟩
          exact ih db1 db' h hstep.1 hstep.2

/-- C1: starting from any well-formed store satisfying the count invariant,
after any sequence of ingestion (per-face match-or-create with link creation)
and merge operations completes, every identity's `photo_count` equals the
number of occurrence links referencing it. -/
theorem photo_count_matches_link_count (mix : List Emb → Emb) (ops : List Op)
    (db db' : DB) (hWF : WF db) (hInv : countInv db)
    (h : execOps mix ops db = some db') :
    ∀ f ∈ db'.faces, f.photo_count = linkCount db'.links f.id :=
  (execOps_inv mix ops db db' h hWF hInv).2

/-- Witness for C1: ingesting one photo with one novel face into the empty
store. -/
theorem photo_count_matches_link_count_witness :
    (FaceRec.mk 0 none (some [1, 0]) 1).photo_count =
      linkCount (DB.mk [FaceRec.mk 0 none (some [1, 0]) 1]
        [mkLink 3 0 (detOf [1, 0])] 1).links
        (FaceRec.mk 0 none (some [1, 0]) 1).id :=
  photo_count_matches_link_count mixNil [Op.ingest 3 [detOf [1, 0]]] emptyDB
    (DB.mk [FaceRec.mk 0 none (some [1, 0]) 1] [mkLink 3 0 (detOf [1, 0])] 1)
    (by decide) (by decide) (by decide)
    (FaceRec.mk 0 none (some [1, 0]) 1) (by decide)

/-! ### Same-photo snapshot matching (C9) -/

/-- C9: processing one photo with two embedded faces against an empty store,
the second face is matched against the snapshot extended with the identity
created for the first face: if the cosine distance between the two embeddings
exceeds the threshold, two distinct identities (ids 0 and 1) are created, each
with `photo_count` 1 and one occurrence link; if it is within the threshold,
the second face is assigned to the just-created identity 0, which ends with
`photo_count` 2 and both links, and no second identity is created. -/
theorem same_photo_snapshot_matching (mix : List Emb → Emb) (p : Nat)
    (d1 d2 : Detection) (e1 e2 : Emb) (h1 : d1.emb = some e1)
    (h2 : d2.emb = some e2) :
    (MATCH_THRESHOLD < 1 - dotQ e1 e2 →
      process_photo mix p [d1, d2] emptyDB =
        some (DB.mk
          [FaceRec.mk 0 none (some e1) 1, FaceRec.mk 1 none (some e2) 1]
          [mkLink p 0 d1, mkLink p 1 d2] 2)) ∧
      (1 - dotQ e1 e2 ≤ MATCH_THRESHOLD →
        process_photo mix p [d1, d2] emptyDB =
          some (DB.mk
            [FaceRec.mk 0 none (some (compute_centroid mix [e1, e2])) 2]
            [mkLink p 0 d1, mkLink p 0 d2] 1)) := by
  have hstep1 : processFace mix p ⟨emptyDB, [], []⟩ d1 =
      some ⟨⟨[FaceRec.mk 0 none (some e1) 1], [mkLink p 0 d1], 1⟩,
        [e1], [0]⟩ := by
    unfold processFace
    simp only [h1]
    rfl
  have hfn2 : (find_nearest_face e2 [e1] [0] MATCH_THRESHOLD).1 =
      (if 1 - dotQ e1 e2 ≤ MATCH_THRESHOLD then some 0 else none) := by
    show (if 1 - dotQ e1 e2 ≤ MATCH_THRESHOLD
      then ((some 0 : Option Nat), 1 - dotQ e1 e2)
      else ((none : Option Nat), 1 - dotQ e1 e2)).1 =
      (if 1 - dotQ e1 e2 ≤ MATCH_THRESHOLD then some 0 else none)
    by_cases hc : 1 - dotQ e1 e2 ≤ MATCH_THRESHOLD
    · rw [if_pos hc, if_pos hc]
    · rw [if_neg hc, if_neg hc]
  constructor
  · intro hgt
    have hcond : ¬ (1 - dotQ e1 e2 ≤ MATCH_THRESHOLD) := not_le.mpr hgt
    have hm2 : (find_nearest_face e2 [e1] [0] MATCH_THRESHOLD).1 = none := by
      rw [hfn2, if_neg hcond]
    have hstep2 : processFace mix p
        ⟨⟨[FaceRec.mk 0 none (some e1) 1], [mkLink p 0 d1], 1⟩, [e1], [0]⟩
        d2 =
        some ⟨⟨[FaceRec.mk 0 none (some e1) 1, FaceRec.mk 1 none (some e2) 1],
          [mkLink p 0 d1, mkLink p 1 d2], 2⟩, [e1, e2], [0, 1]⟩ := by
      unfold processFace
      simp only [h2, hm2]
      rfl
    have hrun : processFaces mix p [d1, d2] ⟨emptyDB, [], []⟩ =
        some ⟨⟨[FaceRec.mk 0 none (some e1) 1, FaceRec.mk 1 none (some e2) 1],
          [mkLink p 0 d1, mkLink p 1 d2], 2⟩, [e1, e2], [0, 1]⟩ := by
      simp only [processFaces, hstep1, hstep2]
    show (processFaces mix p [d1, d2] ⟨emptyDB, [], []⟩).map
      (fun st => st.db) = _
    rw [hrun]
    rfl
  · intro hle
    have hm2 : (find_nearest_face e2 [e1] [0] MATCH_THRESHOLD).1 = some 0 := by
      rw [hfn2, if_pos hle]
    have hstep2 : processFace mix p
        ⟨⟨[FaceRec.mk 0 none (some e1) 1], [mkLink p 0 d1], 1⟩, [e1], [0]⟩
        d2 =
        some ⟨⟨[FaceRec.mk 0 none (some (compute_centroid mix [e1, e2])) 2],
          [mkLink p 0 d1, mkLink p 0 d2], 1⟩, [e1], [0]⟩ := by
      unfold processFace
      simp only [h2, hm2]
      rfl
    have hrun : processFaces mix p [d1, d2] ⟨emptyDB, [], []⟩ =
        some ⟨⟨[FaceRec.mk 0 none (some (compute_centroid mix [e1, e2])) 2],
          [mkLink p 0 d1, mkLink p 0 d2], 1⟩, [e1], [0]⟩ := by
      simp only [processFaces, hstep1, hstep2]
    show (processFaces mix p [d1, d2] ⟨emptyDB, [], []⟩).map
      (fun st => st.db) = _
    rw [hrun]
    rfl

/-- Witness for C9 at orthogonal unit embeddings. -/
theorem same_photo_snapshot_matching_witness :
    (MATCH_THRESHOLD < 1 - dotQ [1, 0] [0, 1] →
      process_photo mixNil 7 [detOf [1, 0], detOf [0, 1]] emptyDB =
        some (DB.mk
          [FaceRec.mk 0 none (some [1, 0]) 1, FaceRec.mk 1 none (some [0, 1]) 1]
          [mkLink 7 0 (detOf [1, 0]), mkLink 7 1 (detOf [0, 1])] 2)) ∧
      (1 - dotQ [1, 0] [0, 1] ≤ MATCH_THRESHOLD →
        process_photo mixNil 7 [detOf [1, 0], detOf [0, 1]] emptyDB =
          some (DB.mk
            [FaceRec.mk 0 none (some (compute_centroid mixNil [[1, 0], [0, 1]])) 2]
            [mkLink 7 0 (detOf [1, 0]), mkLink 7 0 (detOf [0, 1])] 1)) :=
  same_photo_snapshot_matching mixNil 7 (detOf [1, 0]) (detOf [0, 1])
    [1, 0] [0, 1] rfl rfl

end FacePipeline
